import Mathlib

/-
Verification of the SuperPoint + LightGlue SfM pipeline script
(sp_lightglue_sfm.py) against its specification.

The development shallow-embeds the core functions of the script:
filesystem effects become explicit state passing over a map from paths to
file contents, the Python callable-binding logic becomes a function over a
description of a signature, and directory scans become functions over lists
of directory entries.  Every definition is translated from the source of
the script; definitions that instead transcribe the wording of the
specification (for comparison) carry a spec marker in their name and
doc comment.
-/

namespace Glacier

/-! ## Filesystem model and the move-with-identity-dedup primitive

The primitive move_file (source lines 176-186) only ever touches the two
paths it is given, so a flat map from paths to optional contents models the
relevant filesystem.  Directories are implicit: the mkdir call in the
source only creates parents with exist_ok=True and therefore has no
observable effect at this level.  File sizes are byte counts, modeled as
the length of the content list. -/

/-- Byte content of a file.  Only equality and length (the stat st_size)
are ever observed by the script. -/
abbrev Content := List Nat

/-- A filesystem path.  Only equality of paths is observed. -/
abbrev FPath := String

/-- A flat filesystem: each path holds a file content or nothing. -/
abbrev FsState := FPath → Option Content

/-- An empty filesystem. -/
def fs_empty : FsState := fun _ => none

/-- Write content c at path p (Path.write, or the effect of a move target). -/
def fs_set (σ : FsState) (p : FPath) (c : Content) : FsState :=
  fun q => if q = p then some c else σ q

/-- Delete the file at path p (Path.unlink). -/
def fs_del (σ : FsState) (p : FPath) : FsState :=
  fun q => if q = p then none else σ q

@[simp]
theorem fs_set_same (σ : FsState) (p : FPath) (c : Content) : fs_set σ p c p = some c := by
  simp [fs_set]

@[simp]
theorem fs_set_ne (σ : FsState) (p : FPath) (c : Content) (q : FPath) (h : q ≠ p) :
    fs_set σ p c q = σ q := by
  simp [fs_set, h]

@[simp]
theorem fs_del_same (σ : FsState) (p : FPath) : fs_del σ p p = none := by
  simp [fs_del]

@[simp]
theorem fs_del_ne (σ : FsState) (p : FPath) (q : FPath) (h : q ≠ p) : fs_del σ p q = σ q := by
  simp [fs_del, h]

/-- shutil.move as used by the source: relocate the file at src to dst;
raises FileNotFoundError when src does not exist. -/
def shutil_move (σ : FsState) (src dst : FPath) : Except Unit FsState :=
  match σ src with
  | some c => .ok (fs_set (fs_del σ src) dst c)
  | none => .error ()

/-- move_file from the source (lines 176-186).  The parent mkdir is a
no-op in this model.  If dst exists, the source compares the stat sizes
inside a try block: equal sizes delete src and return; an exception from
stat (src missing) is swallowed by the bare except and control falls
through; in both fall-through cases dst is unlinked and shutil.move is
attempted. -/
def move_file (σ : FsState) (src dst : FPath) : Except Unit FsState :=
  if (σ dst).isSome then
    match σ src, σ dst with
    | some s, some d =>
      if s.length = d.length then .ok (fs_del σ src)
      else shutil_move (fs_del σ dst) src dst
    | _, _ => shutil_move (fs_del σ dst) src dst
  else shutil_move σ src dst

/-- Observe the content at path p after a move that may have raised. -/
def file_at (r : Except Unit FsState) (p : FPath) : Option (Option Content) :=
  match r with
  | .ok σ => some (σ p)
  | .error _ => none

/-- Characterization of move_file when the source file exists and the two
paths differ; shared by the theorems below. -/
theorem move_file_spec (σ : FsState) (src dst : FPath) (s : Content)
    (hs : σ src = some s) (hne : src ≠ dst) :
    move_file σ src dst =
      match σ dst with
      | some d =>
        if s.length = d.length then .ok (fs_del σ src)
        else .ok (fs_set (fs_del (fs_del σ dst) src) dst s)
      | none => .ok (fs_set (fs_del σ src) dst s) := by
  have hds : fs_del σ dst src = some s := by
    rw [fs_del_ne σ dst src hne, hs]
  cases hd : σ dst with
  | none =>
    simp [move_file, hd, shutil_move, hs]
  | some d =>
    by_cases hlen : s.length = d.length
    · simp [move_file, hd, hs, hlen]
    · simp [move_file, hd, hs, hlen, shutil_move, hds]

/-- Case analysis of move_file on an existing source; shared helper. -/
theorem move_file_cases_core (σ : FsState) (src dst : FPath) (s : Content)
    (hs : σ src = some s) (hne : src ≠ dst) :
    (∀ d, σ dst = some d → s.length = d.length →
      ∃ σ₂, move_file σ src dst = .ok σ₂ ∧ σ₂ src = none ∧ σ₂ dst = some d ∧
        ∀ q, q ≠ src → σ₂ q = σ q) ∧
    (∀ d, σ dst = some d → s.length ≠ d.length →
      ∃ σ₂, move_file σ src dst = .ok σ₂ ∧ σ₂ src = none ∧ σ₂ dst = some s) ∧
    (σ dst = none →
      ∃ σ₂, move_file σ src dst = .ok σ₂ ∧ σ₂ src = none ∧ σ₂ dst = some s) := by
  have hne' : dst ≠ src := fun h => hne h.symm
  refine ⟨?_, ?_, ?_⟩
  · intro d hd hlen
    refine ⟨fs_del σ src, ?_, by simp, ?_, ?_⟩
    · rw [move_file_spec σ src dst s hs hne, hd]
      simp [hlen]
    · rw [fs_del_ne σ src dst hne', hd]
    · intro q hq
      exact fs_del_ne σ src q hq
  · intro d hd hlen
    refine ⟨fs_set (fs_del (fs_del σ dst) src) dst s, ?_, ?_, by simp⟩
    · rw [move_file_spec σ src dst s hs hne, hd]
      simp [hlen]
    · rw [fs_set_ne _ dst s src hne]
      simp
  · intro hd
    refine ⟨fs_set (fs_del σ src) dst s, ?_, ?_, by simp⟩
    · rw [move_file_spec σ src dst s hs hne, hd]
    · rw [fs_set_ne _ dst s src hne]
      simp

/-- Claim C4: the move-with-identity-dedup primitive satisfies, for every
existing source file and destination path: if the destination exists with
byte size equal to the size of the source, the source is deleted and the
destination (and every other path) is left unchanged; if the destination
exists with a different size, the destination is deleted and replaced by
the source; if the destination does not exist, the source is relocated
there (parent directories are implicit in this model and their creation is
a no-op). -/
theorem c4_move_file_cases (σ : FsState) (src dst : FPath) (s : Content)
    (hs : σ src = some s) (hne : src ≠ dst) :
    (∀ d, σ dst = some d → s.length = d.length →
      ∃ σ₂, move_file σ src dst = .ok σ₂ ∧ σ₂ src = none ∧ σ₂ dst = some d ∧
        ∀ q, q ≠ src → σ₂ q = σ q) ∧
    (∀ d, σ dst = some d → s.length ≠ d.length →
      ∃ σ₂, move_file σ src dst = .ok σ₂ ∧ σ₂ src = none ∧ σ₂ dst = some s) ∧
    (σ dst = none →
      ∃ σ₂, move_file σ src dst = .ok σ₂ ∧ σ₂ src = none ∧ σ₂ dst = some s) :=
  move_file_cases_core σ src dst s hs hne

/-- A concrete filesystem for the C4 witness: the source file holds one
byte, the destination three bytes. -/
def c4_sigma : FsState :=
  fs_set (fs_set fs_empty "work/cameras.bin" [5]) "out/cameras.bin" [1, 2, 3]

/-- Witness for C4 at a concrete input (different sizes: the destination
is replaced by the source). -/
theorem c4_move_file_cases_witness :
    (c4_sigma "work/cameras.bin" = some [5] ∧
      c4_sigma "out/cameras.bin" = some [1, 2, 3] ∧
      ("work/cameras.bin" : FPath) ≠ "out/cameras.bin" ∧
      ([5] : Content).length ≠ ([1, 2, 3] : Content).length) ∧
    (∃ σ₂, move_file c4_sigma "work/cameras.bin" "out/cameras.bin" = .ok σ₂ ∧
      σ₂ "work/cameras.bin" = none ∧ σ₂ "out/cameras.bin" = some [5]) :=
  ⟨⟨by decide, by decide, by decide, by decide⟩,
    (c4_move_file_cases c4_sigma "work/cameras.bin" "out/cameras.bin" [5]
        (by decide) (by decide)).2.1 [1, 2, 3] (by decide) (by decide)⟩

/-- Claim C5: the primitive is idempotent in the sense of the
specification: after a first application, re-creating the source file with
the same content and applying the primitive again with the same arguments
succeeds (the second application never raises) and leaves the destination
in the same state the first application produced. -/
theorem c5_move_file_idempotent (σ : FsState) (src dst : FPath) (c : Content)
    (hs : σ src = some c) (hne : src ≠ dst) :
    ∃ σ₁, move_file σ src dst = .ok σ₁ ∧
      ∃ σ₂, move_file (fs_set σ₁ src c) src dst = .ok σ₂ ∧ σ₂ dst = σ₁ dst := by
  have hne' : dst ≠ src := fun h => hne h.symm
  have hsrc2 : ∀ τ : FsState, fs_set τ src c src = some c := by
    intro τ; simp
  -- after the first application the destination always holds a content of
  -- the length of c or the length of the previous destination content
  rw [move_file_spec σ src dst c hs hne]
  cases hd : σ dst with
  | none =>
    refine ⟨fs_set (fs_del σ src) dst c, rfl, ?_⟩
    have h1 : fs_set (fs_set (fs_del σ src) dst c) src c dst = some c := by
      rw [fs_set_ne _ src c dst hne']; simp
    rw [move_file_spec (fs_set (fs_set (fs_del σ src) dst c) src c) src dst c (hsrc2 _) hne, h1]
    simp
    rw [fs_del_ne _ src dst hne', h1]
  | some d =>
    by_cases hlen : c.length = d.length
    · simp only [hlen, if_pos rfl, if_true]
      refine ⟨fs_del σ src, by simp [hlen], ?_⟩
      have h1 : fs_set (fs_del σ src) src c dst = some d := by
        rw [fs_set_ne _ src c dst hne', fs_del_ne σ src dst hne', hd]
      rw [move_file_spec (fs_set (fs_del σ src) src c) src dst c (hsrc2 _) hne, h1]
      simp [hlen]
      rw [fs_del_ne _ src dst hne', h1, fs_del_ne σ src dst hne', hd]
    · simp only [hlen, if_neg hlen, if_false]
      refine ⟨fs_set (fs_del (fs_del σ dst) src) dst c, rfl, ?_⟩
      have h1 : fs_set (fs_set (fs_del (fs_del σ dst) src) dst c) src c dst = some c := by
        rw [fs_set_ne _ src c dst hne']; simp
      rw [move_file_spec (fs_set (fs_set (fs_del (fs_del σ dst) src) dst c) src c)
        src dst c (hsrc2 _) hne, h1]
      simp
      rw [fs_del_ne _ src dst hne', h1]

/-- Witness for C5 at a concrete input. -/
theorem c5_move_file_idempotent_witness :
    (c4_sigma "work/cameras.bin" = some [5] ∧
      ("work/cameras.bin" : FPath) ≠ "out/cameras.bin") ∧
    (∃ σ₁, move_file c4_sigma "work/cameras.bin" "out/cameras.bin" = .ok σ₁ ∧
      ∃ σ₂, move_file (fs_set σ₁ "work/cameras.bin" [5]) "work/cameras.bin" "out/cameras.bin"
          = .ok σ₂ ∧
        σ₂ "out/cameras.bin" = σ₁ "out/cameras.bin") :=
  ⟨⟨by decide, by decide⟩,
    c5_move_file_idempotent c4_sigma "work/cameras.bin" "out/cameras.bin" [5]
      (by decide) (by decide)⟩

/-- A concrete filesystem refuting C2 as stated: the source and the
destination hold different contents of equal byte size. -/
def c2_sigma : FsState :=
  fs_set (fs_set fs_empty "work/points3D.bin" [0, 1]) "out/points3D.bin" [9, 7]

/-- Claim C2 (counterexample): applying move_file to a source and an
existing destination whose contents differ but whose byte sizes are equal
keeps the old destination content and deletes the source, so the
most-recent content [0, 1] is silently lost and the surviving file does
not hold the content of the source. -/
theorem c2_counterexample :
    file_at (move_file c2_sigma "work/points3D.bin" "out/points3D.bin") "out/points3D.bin"
      = some (some [9, 7]) ∧
    file_at (move_file c2_sigma "work/points3D.bin" "out/points3D.bin") "work/points3D.bin"
      = some none ∧
    c2_sigma "work/points3D.bin" = some [0, 1] ∧
    ([0, 1] : Content) ≠ [9, 7] := by
  refine ⟨by decide, by decide, by decide, by decide⟩

/-- Claim C2 (amended): the primitive dedups by byte size, not by content.
Whenever it is applied to a source and an existing destination of a
different byte size, the surviving file at the destination has the content
of the source; when the byte sizes are equal the source is deleted and the
destination keeps its previous content, so a source whose content differs
from the destination at equal size is discarded. -/
theorem c2_amended_size_dedup (σ : FsState) (src dst : FPath) (s d : Content)
    (hs : σ src = some s) (hd : σ dst = some d) (hne : src ≠ dst) :
    (s.length ≠ d.length →
      ∃ σ₂, move_file σ src dst = .ok σ₂ ∧ σ₂ dst = some s ∧ σ₂ src = none) ∧
    (s.length = d.length →
      ∃ σ₂, move_file σ src dst = .ok σ₂ ∧ σ₂ dst = some d ∧ σ₂ src = none) := by
  have hne' : dst ≠ src := fun h => hne h.symm
  constructor
  · intro hlen
    obtain ⟨σ₂, h1, h2, h3⟩ :=
      (move_file_cases_core σ src dst s hs hne).2.1 d hd hlen
    exact ⟨σ₂, h1, h3, h2⟩
  · intro hlen
    obtain ⟨σ₂, h1, h2, h3, _⟩ :=
      (move_file_cases_core σ src dst s hs hne).1 d hd hlen
    exact ⟨σ₂, h1, h3, h2⟩

/-- Witness for the amended C2 at a concrete input (equal sizes, different
contents: the destination keeps its old content). -/
theorem c2_amended_size_dedup_witness :
    (c2_sigma "work/points3D.bin" = some [0, 1] ∧
      c2_sigma "out/points3D.bin" = some [9, 7] ∧
      ("work/points3D.bin" : FPath) ≠ "out/points3D.bin" ∧
      ([0, 1] : Content).length = ([9, 7] : Content).length) ∧
    (∃ σ₂, move_file c2_sigma "work/points3D.bin" "out/points3D.bin" = .ok σ₂ ∧
      σ₂ "out/points3D.bin" = some [9, 7] ∧ σ₂ "work/points3D.bin" = none) :=
  ⟨⟨by decide, by decide, by decide, by decide⟩,
    (c2_amended_size_dedup c2_sigma "work/points3D.bin" "out/points3D.bin" [0, 1] [9, 7]
        (by decide) (by decide) (by decide)).2 (by decide)⟩

/-! ## Deduplication of sparse/0 (source lines 188-200 and 224-232)

For the dedup invariant only the names of the files in sparse/0 matter.
A name is modeled as the pair of the Python Path.stem and the final
extension without its dot (Path decomposition of e.g. cameras.bin into
stem cameras and suffix .bin); glob star-dot-bin selects exactly the files
with extension bin.  finalize_to_colmap_layout moves every file found
under the located source directory flat into sparse/0 via move_file; each
move leaves a file with that name present at the destination regardless of
the branch taken, so after the relocation loop the set of names in
sparse/0 is the union of the pre-existing names and the moved names, and
dedup_sparse_zero then runs on that set.  The txt unlink in the source is
wrapped in a try block that only guards against filesystem errors, which
this model does not produce. -/

/-- A file name in sparse/0, as Python decomposes it: stem and final
extension (without the dot). -/
structure FName where
  stem : String
  ext : String
deriving DecidableEq, Repr

/-- dedup_sparse_zero from the source (lines 188-200): collect the stems
of the bin files, then delete every txt file whose stem has a bin
counterpart. -/
def dedup_sparse_zero (files : List FName) : List FName :=
  let has_bin := (files.filter (fun f => f.ext == "bin")).map FName.stem
  files.filter (fun f => !(f.ext == "txt" && has_bin.contains f.stem))

/-- The sparse part of finalize_to_colmap_layout (lines 213-232): when no
source reconstruction directory was located the function warns and
returns, leaving sparse/0 untouched; otherwise every file of the located
directory is moved flat into sparse/0 and dedup_sparse_zero runs on the
result. -/
def finalize_to_colmap_sparse (sparse0_init : List FName) (located : Option (List FName)) :
    List FName :=
  match located with
  | none => sparse0_init
  | some moved => dedup_sparse_zero ((sparse0_init ++ moved).dedup)

/-- Membership characterization of dedup_sparse_zero; shared helper. -/
theorem mem_dedup_sparse_zero (files : List FName) (f : FName) :
    f ∈ dedup_sparse_zero files ↔
      f ∈ files ∧ ¬(f.ext = "txt" ∧ ∃ g ∈ files, g.ext = "bin" ∧ g.stem = f.stem) := by
  simp only [dedup_sparse_zero, List.mem_filter, Bool.not_eq_true',
    Bool.and_eq_false_iff, beq_eq_false_iff_ne, ne_eq]
  constructor
  · rintro ⟨hmem, h | h⟩
    · exact ⟨hmem, fun hc => h hc.1⟩
    · refine ⟨hmem, ?_⟩
      rintro ⟨-, g, hg, hgbin, hgstem⟩
      have : f.stem ∈ (files.filter (fun x => x.ext == "bin")).map FName.stem := by
        refine List.mem_map.2 ⟨g, ?_, hgstem⟩
        exact List.mem_filter.2 ⟨hg, by simp [hgbin]⟩
      exact (Bool.eq_false_iff.1 h) (List.elem_iff.2 this)
  · rintro ⟨hmem, hno⟩
    refine ⟨hmem, ?_⟩
    by_cases htxt : f.ext = "txt"
    · right
      rw [Bool.eq_false_iff]
      intro hcontains
      obtain ⟨g, hg, hgstem⟩ := List.mem_map.1 (List.elem_iff.1 hcontains)
      obtain ⟨hgmem, hgbin⟩ := List.mem_filter.1 hg
      exact hno ⟨htxt, g, hgmem, by simpa using hgbin, hgstem⟩
    · exact Or.inl htxt

/-- Claim C6: after the consolidation step completes with a located source
directory, every stem that reached the destination sparse/0 in both bin
and txt form keeps only the bin form, and a txt file whose stem has no bin
counterpart survives. -/
theorem c6_dedup_invariant (init moved : List FName) (s : String) :
    ((⟨s, "bin"⟩ : FName) ∈ init ++ moved ∧ (⟨s, "txt"⟩ : FName) ∈ init ++ moved →
      (⟨s, "txt"⟩ : FName) ∉ finalize_to_colmap_sparse init (some moved) ∧
      (⟨s, "bin"⟩ : FName) ∈ finalize_to_colmap_sparse init (some moved)) ∧
    ((⟨s, "bin"⟩ : FName) ∉ init ++ moved ∧ (⟨s, "txt"⟩ : FName) ∈ init ++ moved →
      (⟨s, "txt"⟩ : FName) ∈ finalize_to_colmap_sparse init (some moved)) := by
  constructor
  · rintro ⟨hbin, htxt⟩
    constructor
    · intro hmem
      rw [finalize_to_colmap_sparse] at hmem
      obtain ⟨-, hno⟩ := (mem_dedup_sparse_zero _ _).1 hmem
      exact hno ⟨rfl, ⟨s, "bin"⟩, List.mem_dedup.2 hbin, rfl, rfl⟩
    · rw [finalize_to_colmap_sparse]
      refine (mem_dedup_sparse_zero _ _).2 ⟨List.mem_dedup.2 hbin, ?_⟩
      rintro ⟨hc, -⟩
      simp at hc
  · rintro ⟨hbin, htxt⟩
    rw [finalize_to_colmap_sparse]
    refine (mem_dedup_sparse_zero _ _).2 ⟨List.mem_dedup.2 htxt, ?_⟩
    rintro ⟨-, g, hg, hgbin, hgstem⟩
    apply hbin
    have : g = ⟨s, "bin"⟩ := by
      cases g
      simp_all
    rw [this] at hg
    exact List.mem_dedup.1 hg

/-- Witness for C6 at a concrete input: cameras is present as bin and txt,
points3d only as txt. -/
theorem c6_dedup_invariant_witness :
    (((⟨"cameras", "bin"⟩ : FName) ∈
        ([⟨"cameras", "txt"⟩] ++ [⟨"cameras", "bin"⟩, ⟨"points3d", "txt"⟩] : List FName)) ∧
      ((⟨"cameras", "txt"⟩ : FName) ∈
        ([⟨"cameras", "txt"⟩] ++ [⟨"cameras", "bin"⟩, ⟨"points3d", "txt"⟩] : List FName))) ∧
    ((⟨"cameras", "txt"⟩ : FName) ∉
        finalize_to_colmap_sparse [⟨"cameras", "txt"⟩]
          (some [⟨"cameras", "bin"⟩, ⟨"points3d", "txt"⟩]) ∧
      (⟨"cameras", "bin"⟩ : FName) ∈
        finalize_to_colmap_sparse [⟨"cameras", "txt"⟩]
          (some [⟨"cameras", "bin"⟩, ⟨"points3d", "txt"⟩])) ∧
    (⟨"points3d", "txt"⟩ : FName) ∈
        finalize_to_colmap_sparse [⟨"cameras", "txt"⟩]
          (some [⟨"cameras", "bin"⟩, ⟨"points3d", "txt"⟩]) :=
  ⟨⟨by decide, by decide⟩,
    (c6_dedup_invariant [⟨"cameras", "txt"⟩] [⟨"cameras", "bin"⟩, ⟨"points3d", "txt"⟩]
        "cameras").1 ⟨by decide, by decide⟩,
    (c6_dedup_invariant [⟨"cameras", "txt"⟩] [⟨"cameras", "bin"⟩, ⟨"points3d", "txt"⟩]
        "points3d").2 ⟨by decide, by decide⟩⟩

/-! ## Reconstruction-directory discovery (source lines 156-174)

locate_sparse_dir walks every directory below the search root (rglob) and
keeps those whose immediate child names, lowercased, contain one of three
complete-model file sets; among the candidates it sorts by the number of
path components (len of Path.parts) and returns the first, i.e. a
candidate with the fewest components (the Python sort is stable, so ties
keep rglob order — the fold below likewise keeps the earliest minimum).
If no descendant matches, the root itself is checked, else None.  A
directory is modeled by its full path components and the list of names
produced by glob star (files and subdirectories alike).  Lowercasing is
per character, which agrees with Python str.lower on these ASCII names. -/

/-- A directory as seen by locate_sparse_dir: absolute path components and
the names of its immediate children. -/
structure SDir where
  parts : List String
  files : List String
deriving DecidableEq, Repr

/-- Lowercased character data of a string (Python str.lower on ASCII). -/
def lower_data (s : String) : List Char := s.data.map Char.toLower

/-- The three complete-model signatures of the source. -/
def sig_bin : List String := ["cameras.bin", "images.bin", "points3d.bin"]

/-- Alternate binary signature with frames.bin as the middle name. -/
def sig_frames : List String := ["cameras.bin", "frames.bin", "points3d.bin"]

/-- Text-form signature. -/
def sig_txt : List String := ["cameras.txt", "images.txt", "points3d.txt"]

/-- The issubset tests of the source: each required name is among the
lowercased child names. -/
def has_model_signature (files : List String) : Bool :=
  let lower := files.map lower_data
  sig_bin.all (fun n => lower.contains n.data) ||
    sig_frames.all (fun n => lower.contains n.data) ||
    sig_txt.all (fun n => lower.contains n.data)

/-- First candidate with the fewest path components: the fold keeps the
accumulator unless a strictly shorter candidate appears, matching
candidates.sort(key=len(parts))[0] for a stable sort. -/
def pick_fewest_parts (a : SDir) (l : List SDir) : SDir :=
  l.foldl (fun best e => if e.parts.length < best.parts.length then e else best) a

/-- locate_sparse_dir from the source: prefer a matching strict descendant
with the fewest path components, fall back to the root itself, else
nothing. -/
def locate_sparse_dir (root : SDir) (subdirs : List SDir) : Option SDir :=
  match subdirs.filter (fun d => has_model_signature d.files) with
  | c :: cs => some (pick_fewest_parts c cs)
  | [] => if has_model_signature root.files then some root else none

theorem pick_fewest_parts_step (a e : SDir) (t : List SDir) :
    pick_fewest_parts a (e :: t) =
      pick_fewest_parts (if e.parts.length < a.parts.length then e else a) t := by
  rw [pick_fewest_parts, pick_fewest_parts, List.foldl_cons]

theorem pick_fewest_parts_mem (a : SDir) (l : List SDir) :
    pick_fewest_parts a l ∈ a :: l := by
  induction l generalizing a with
  | nil => simp [pick_fewest_parts]
  | cons e t ih =>
    rw [pick_fewest_parts_step]
    by_cases hlt : e.parts.length < a.parts.length
    · rw [if_pos hlt]
      rcases List.mem_cons.1 (ih e) with h | h
      · rw [h]
        exact List.mem_cons_of_mem _ (List.mem_cons_self _ _)
      · exact List.mem_cons_of_mem _ (List.mem_cons_of_mem _ h)
    · rw [if_neg hlt]
      rcases List.mem_cons.1 (ih a) with h | h
      · rw [h]
        exact List.mem_cons_self _ _
      · exact List.mem_cons_of_mem _ (List.mem_cons_of_mem _ h)

theorem pick_fewest_parts_le (a : SDir) (l : List SDir) :
    ∀ x ∈ a :: l, (pick_fewest_parts a l).parts.length ≤ x.parts.length := by
  induction l generalizing a with
  | nil =>
    intro x hx
    rw [List.mem_singleton] at hx
    rw [hx, pick_fewest_parts]
    simp
  | cons e t ih =>
    intro x hx
    rw [pick_fewest_parts_step]
    by_cases hlt : e.parts.length < a.parts.length
    · rw [if_pos hlt]
      rcases List.mem_cons.1 hx with hx | hx
      · rw [hx]
        exact le_trans (ih e e (List.mem_cons_self _ _)) (le_of_lt hlt)
      · rcases List.mem_cons.1 hx with hx | hx
        · rw [hx]
          exact ih e e (List.mem_cons_self _ _)
        · exact ih e x (List.mem_cons_of_mem _ hx)
    · rw [if_neg hlt]
      rcases List.mem_cons.1 hx with hx | hx
      · rw [hx]
        exact ih a a (List.mem_cons_self _ _)
      · rcases List.mem_cons.1 hx with hx | hx
        · rw [hx]
          exact le_trans (ih a a (List.mem_cons_self _ _)) (le_of_not_lt hlt)
        · exact ih a x (List.mem_cons_of_mem _ hx)

/-- Claim C8: whenever several directories below the search root satisfy a
complete-model signature, locate_sparse_dir returns one of the matching
directories and its number of path components is minimal among them; a
directory nested deeper (more path components) is never preferred. -/
theorem c8_locate_sparse_min_depth (root : SDir) (subdirs : List SDir)
    (c : SDir) (cs : List SDir)
    (h : subdirs.filter (fun d => has_model_signature d.files) = c :: cs) :
    ∃ d, locate_sparse_dir root subdirs = some d ∧
      d ∈ subdirs ∧ has_model_signature d.files = true ∧
      ∀ e ∈ subdirs, has_model_signature e.files = true →
        d.parts.length ≤ e.parts.length := by
  refine ⟨pick_fewest_parts c cs, ?_, ?_, ?_, ?_⟩
  · rw [locate_sparse_dir, h]
  · have : pick_fewest_parts c cs ∈ c :: cs := pick_fewest_parts_mem c cs
    rw [← h] at this
    exact (List.mem_filter.1 this).1
  · have : pick_fewest_parts c cs ∈ c :: cs := pick_fewest_parts_mem c cs
    rw [← h] at this
    exact (List.mem_filter.1 this).2
  · intro e hmem hsig
    have he : e ∈ c :: cs := by
      rw [← h]
      exact List.mem_filter.2 ⟨hmem, hsig⟩
    exact pick_fewest_parts_le c cs e he

/-- Depth-2 candidate for the C8 witness. -/
def c8_shallow : SDir := ⟨["sfm", "models"], ["cameras.bin", "images.bin", "points3d.bin"]⟩

/-- Depth-4 candidate for the C8 witness. -/
def c8_deep : SDir :=
  ⟨["sfm", "models", "nested", "copy"], ["cameras.bin", "images.bin", "points3d.bin"]⟩

/-- Witness for C8: with a depth-2 and a depth-4 directory both satisfying
the binary signature, the depth-2 directory is selected. -/
theorem c8_locate_sparse_min_depth_witness :
    ([c8_deep, c8_shallow].filter (fun d => has_model_signature d.files)
        = [c8_deep, c8_shallow]) ∧
    (∃ d, locate_sparse_dir ⟨["sfm"], []⟩ [c8_deep, c8_shallow] = some d ∧
      d ∈ [c8_deep, c8_shallow] ∧ has_model_signature d.files = true ∧
      ∀ e ∈ [c8_deep, c8_shallow], has_model_signature e.files = true →
        d.parts.length ≤ e.parts.length) ∧
    locate_sparse_dir ⟨["sfm"], []⟩ [c8_deep, c8_shallow] = some c8_shallow :=
  ⟨by decide,
    c8_locate_sparse_min_depth ⟨["sfm"], []⟩ [c8_deep, c8_shallow] c8_deep [c8_shallow]
      (by decide),
    by decide⟩

/-! ## Match-file locator (source lines 102-128)

find_matches_file searches the export directory.  Files are modeled with
their full path (used only for the tuple tie-break of the Python sort and
for identity), their basename, whether they sit directly in the export
directory (the preferred fast path tests a single non-recursive path), and
their modification time.  Timestamps are integers in milliseconds so that
sub-second values stay exact; the 1.0 second tolerance of the source is
1000 in this unit.  The rglob star-dot-h5 scans keep only names ending in
.h5.  The recents list is sorted as Python sorts a list of (mtime, path)
tuples — by mtime, ties by path — and its last element is taken; the fold
below computes exactly that maximum (paths of distinct files are distinct,
so the lexicographic order is total on them).  The later glob fallbacks
sort by mtime only with a stable sort and take the last element, which the
second fold mirrors by preferring the later element on ties.  The stat
call never fails in this model, so the except-continue arm is dead. -/

/-- A file as seen by find_matches_file. -/
structure H5File where
  path : String
  name : String
  top : Bool
  mtime : ℤ
deriving DecidableEq, Repr

/-- List-level substring test (the Python in operator on str). -/
def list_contains_sub (needle : List Char) : List Char → Bool
  | [] => needle.isEmpty
  | c :: t => needle.isPrefixOf (c :: t) || list_contains_sub needle t

/-- The keyword test of the source: "match" occurs in the lowercased
basename. -/
def name_has_match (name : String) : Bool :=
  list_contains_sub "match".data (lower_data name)

/-- Name ends with the given literal suffix. -/
def name_ends_with (suffix : String) (name : String) : Bool :=
  suffix.data.reverse.isPrefixOf name.data.reverse

/-- Name starts with the given literal. -/
def name_starts_with (pre : String) (name : String) : Bool :=
  pre.data.isPrefixOf name.data

/-- The time-window filter of step 2 of the locator: an .h5 file whose
name contains the keyword and whose mtime is at or after t0 minus one
second. -/
def match_window (t0 : ℤ) (f : H5File) : Bool :=
  name_ends_with ".h5" f.name && name_has_match f.name && decide (t0 - 1000 ≤ f.mtime)

/-- The glob pattern matches-star-dot-h5 of steps 3 and 4. -/
def matches_glob (f : H5File) : Bool :=
  name_starts_with "matches" f.name && name_ends_with ".h5" f.name

/-- Maximum of a list of files under the (mtime, path) tuple order; the
last element of the sorted recents list. -/
def pick_latest_lex (a : H5File) (l : List H5File) : H5File :=
  l.foldl
    (fun b e =>
      if b.mtime < e.mtime ∨ (b.mtime = e.mtime ∧ b.path < e.path) then e else b) a

/-- Last element of a stable sort by mtime alone: later list elements win
ties. -/
def pick_latest_stable (a : H5File) (l : List H5File) : H5File :=
  l.foldl (fun b e => if b.mtime ≤ e.mtime then e else b) a

/-- find_matches_file from the source: exact-basename fast path in the
export directory, then the keyword-and-time-window scan, then the glob
fallback in the export directory, then the same glob in its parent, else
the FileNotFoundError after the diagnostic dump. -/
def find_matches_file (export_files parent_files : List H5File)
    (preferred_basename : String) (t0 : ℤ) : Except Unit H5File :=
  match export_files.find? (fun f => f.top && f.name == preferred_basename ++ ".h5") with
  | some f => .ok f
  | none =>
    match export_files.filter (match_window t0) with
    | r :: rs => .ok (pick_latest_lex r rs)
    | [] =>
      match export_files.filter matches_glob with
      | a :: l => .ok (pick_latest_stable a l)
      | [] =>
        match parent_files.filter matches_glob with
        | b :: l => .ok (pick_latest_stable b l)
        | [] => .error ()

theorem pick_latest_lex_step (a e : H5File) (t : List H5File) :
    pick_latest_lex a (e :: t) =
      pick_latest_lex
        (if a.mtime < e.mtime ∨ (a.mtime = e.mtime ∧ a.path < e.path) then e else a) t := by
  rw [pick_latest_lex, pick_latest_lex, List.foldl_cons]

theorem pick_latest_lex_mem (a : H5File) (l : List H5File) :
    pick_latest_lex a l ∈ a :: l := by
  induction l generalizing a with
  | nil => simp [pick_latest_lex]
  | cons e t ih =>
    rw [pick_latest_lex_step]
    by_cases hc : a.mtime < e.mtime ∨ (a.mtime = e.mtime ∧ a.path < e.path)
    · rw [if_pos hc]
      rcases List.mem_cons.1 (ih e) with h | h
      · rw [h]
        exact List.mem_cons_of_mem _ (List.mem_cons_self _ _)
      · exact List.mem_cons_of_mem _ (List.mem_cons_of_mem _ h)
    · rw [if_neg hc]
      rcases List.mem_cons.1 (ih a) with h | h
      · rw [h]
        exact List.mem_cons_self _ _
      · exact List.mem_cons_of_mem _ (List.mem_cons_of_mem _ h)

theorem pick_latest_lex_ge (a : H5File) (l : List H5File) :
    ∀ x ∈ a :: l, x.mtime ≤ (pick_latest_lex a l).mtime := by
  induction l generalizing a with
  | nil =>
    intro x hx
    rw [List.mem_singleton] at hx
    rw [hx, pick_latest_lex]
    simp
  | cons e t ih =>
    intro x hx
    rw [pick_latest_lex_step]
    by_cases hc : a.mtime < e.mtime ∨ (a.mtime = e.mtime ∧ a.path < e.path)
    · rw [if_pos hc]
      have hae : a.mtime ≤ e.mtime := by
        rcases hc with hlt | ⟨heq, -⟩
        · exact le_of_lt hlt
        · exact le_of_eq heq
      rcases List.mem_cons.1 hx with hx | hx
      · rw [hx]
        exact le_trans hae (ih e e (List.mem_cons_self _ _))
      · rcases List.mem_cons.1 hx with hx | hx
        · rw [hx]
          exact ih e e (List.mem_cons_self _ _)
        · exact ih e x (List.mem_cons_of_mem _ hx)
    · rw [if_neg hc]
      have hea : e.mtime ≤ a.mtime := by
        rcases le_or_lt e.mtime a.mtime with h | h
        · exact h
        · exact absurd (Or.inl h) hc
      rcases List.mem_cons.1 hx with hx | hx
      · rw [hx]
        exact ih a a (List.mem_cons_self _ _)
      · rcases List.mem_cons.1 hx with hx | hx
        · rw [hx]
          exact le_trans hea (ih a a (List.mem_cons_self _ _))
        · exact ih a x (List.mem_cons_of_mem _ hx)

/-- Claim C7: when no file with the exact requested basename sits in the
export directory and at least one file passes the keyword-and-time-window
filter, the locator returns one of the filtered files, and its
modification time is maximal among all export files that pass the filter
(an .h5 name containing "match", modified at or after invocation start
minus one second, i.e. 1000 ms). -/
theorem c7_find_matches_window (export_files parent_files : List H5File)
    (preferred_basename : String) (t0 : ℤ) (r : H5File) (rs : List H5File)
    (hpref : export_files.find? (fun f => f.top && f.name == preferred_basename ++ ".h5")
      = none)
    (hne : export_files.filter (match_window t0) = r :: rs) :
    ∃ g, find_matches_file export_files parent_files preferred_basename t0 = .ok g ∧
      g ∈ export_files ∧ match_window t0 g = true ∧
      ∀ x ∈ export_files, match_window t0 x = true → x.mtime ≤ g.mtime := by
  refine ⟨pick_latest_lex r rs, ?_, ?_, ?_, ?_⟩
  · rw [find_matches_file, hpref, hne]
  · have : pick_latest_lex r rs ∈ r :: rs := pick_latest_lex_mem r rs
    rw [← hne] at this
    exact (List.mem_filter.1 this).1
  · have : pick_latest_lex r rs ∈ r :: rs := pick_latest_lex_mem r rs
    rw [← hne] at this
    exact (List.mem_filter.1 this).2
  · intro x hmem hwin
    have hx : x ∈ r :: rs := by
      rw [← hne]
      exact List.mem_filter.2 ⟨hmem, hwin⟩
    exact pick_latest_lex_ge r rs x hx

/-- C7 witness, the old file: keyword name, modified 3 s before invocation
start (so before start minus 2 s and outside the 1 s window). -/
def c7_old : H5File := ⟨"/exp/matches_old.h5", "matches_old.h5", false, 97000⟩

/-- C7 witness, the fresh file: keyword name, modified 0.4 s before
invocation start (after start minus 0.5 s, inside the window). -/
def c7_new : H5File := ⟨"/exp/sub/feats-match.h5", "feats-match.h5", false, 99600⟩

/-- Witness for C7 at invocation start 100000 ms: the preferred basename
is absent, the old file falls outside the window, and the locator returns
the fresh file. -/
theorem c7_find_matches_window_witness :
    (([c7_old, c7_new].find?
        (fun f => f.top && f.name == "matches-superpoint-lightglue" ++ ".h5") = none) ∧
      [c7_old, c7_new].filter (match_window 100000) = [c7_new] ∧
      c7_old.mtime < 100000 - 2000 ∧ 100000 - 500 < c7_new.mtime) ∧
    (∃ g, find_matches_file [c7_old, c7_new] [] "matches-superpoint-lightglue" 100000
        = .ok g ∧
      g ∈ [c7_old, c7_new] ∧ match_window 100000 g = true ∧
      ∀ x ∈ [c7_old, c7_new], match_window 100000 x = true → x.mtime ≤ g.mtime) ∧
    find_matches_file [c7_old, c7_new] [] "matches-superpoint-lightglue" 100000
      = .ok c7_new :=
  ⟨⟨by decide, by decide, by decide, by decide⟩,
    c7_find_matches_window [c7_old, c7_new] [] "matches-superpoint-lightglue" 100000
      c7_new [] (by decide) (by decide),
    rfl⟩

/-! ## Adaptive stage invocation (source lines 51-69 and 130-144)

The stage entry points are external callables; what the script observes of
them is their inspect.signature (an ordered list of parameter names, each
with or without a default, positional-or-keyword or keyword-only) and
whether a given call binds without a TypeError.  A call is described by
its positional argument values (as tags) and its keyword names and
values.  Binding follows the Python rule: positional arguments fill the
leading non-keyword-only parameters in order, each keyword must name a
declared parameter not already filled positionally, and every parameter
without a default must be filled.  var-positional and var-keyword
parameters and TypeErrors raised inside a stage body are outside this
model, as they are for the bindings the script uses.  Each invoker
returns the ordered list of call shapes it attempted together with
whether the surviving call bound. -/

/-- One declared parameter of a stage callable. -/
structure Param where
  name : String
  hasDefault : Bool
  kwOnly : Bool
deriving DecidableEq, Repr

/-- The concrete argument values the script passes, as abstract tags. -/
inductive Arg
  | images_dir
  | output_pairs
  | image_list_path
  | conf_val
  | pairs_val
  | features_val
  | export_dir_val
deriving DecidableEq, Repr

/-- A call shape: positional values and keyword bindings. -/
structure CallSpec where
  pos : List Arg
  kw : List (String × Arg)
deriving DecidableEq, Repr

/-- Python argument binding against a signature: true when the call raises
no TypeError. -/
def bindOk (ps : List Param) (call : CallSpec) : Bool :=
  decide (call.pos.length ≤ (ps.takeWhile (fun p => !p.kwOnly)).length) &&
  (call.kw.map Prod.fst).all
    (fun k => ps.any (fun p => p.name == k) &&
      !(((ps.take call.pos.length).map Param.name).contains k)) &&
  ps.all (fun p => p.hasDefault || ((ps.take call.pos.length).map Param.name).contains p.name
    || (call.kw.map Prod.fst).contains p.name)

/-- The preferred keyword binding of call_pairs_exhaustive (image_dir). -/
def pairs_kw_dir : CallSpec := ⟨[], [("image_dir", .images_dir), ("output", .output_pairs)]⟩

/-- The image_list keyword binding of call_pairs_exhaustive. -/
def pairs_kw_list : CallSpec :=
  ⟨[], [("image_list", .image_list_path), ("output", .output_pairs)]⟩

/-- Positional call with the images directory. -/
def pairs_pos_dir : CallSpec := ⟨[.images_dir, .output_pairs], []⟩

/-- Positional call with the image list file. -/
def pairs_pos_list : CallSpec := ⟨[.image_list_path, .output_pairs], []⟩

/-- The first call call_pairs_exhaustive tries, after inspecting the
declared parameter names (source lines 54-64). -/
def pairs_first_attempt (ps : List Param) : CallSpec :=
  let names := ps.map Param.name
  if names.contains "image_dir" then pairs_kw_dir
  else if names.contains "image_list" then pairs_kw_list
  else
    match names with
    | [] => pairs_pos_dir
    | f :: _ => if list_contains_sub "list".data f.data then pairs_pos_list else pairs_pos_dir

/-- call_pairs_exhaustive from the source: the inspected first attempt,
then on TypeError the image_list keyword binding, then the positional
fallback whose TypeError propagates.  Returns the attempted call shapes in
order and whether the last attempt bound. -/
def call_pairs_exhaustive (ps : List Param) : List CallSpec × Bool :=
  let first := pairs_first_attempt ps
  if bindOk ps first then ([first], true)
  else if bindOk ps pairs_kw_list then ([first, pairs_kw_list], true)
  else ([first, pairs_kw_list, pairs_pos_dir], bindOk ps pairs_pos_dir)

/-- The preferred positional binding of call_match_features. -/
def match_pos : CallSpec := ⟨[.conf_val, .pairs_val, .features_val, .export_dir_val], []⟩

/-- The keyword binding of call_match_features. -/
def match_kw : CallSpec :=
  ⟨[], [("conf", .conf_val), ("pairs", .pairs_val), ("features", .features_val),
    ("export_dir", .export_dir_val)]⟩

/-- The mixed positional-plus-keyword fallback of call_match_features. -/
def match_mixed : CallSpec :=
  ⟨[.conf_val, .pairs_val, .export_dir_val], [("features", .features_val)]⟩

/-- call_match_features from the source (lines 136-142): positional, then
keyword, then mixed; the TypeError of the last attempt propagates. -/
def call_match_features (ps : List Param) : List CallSpec × Bool :=
  if bindOk ps match_pos then ([match_pos], true)
  else if bindOk ps match_kw then ([match_pos, match_kw], true)
  else ([match_pos, match_kw, match_mixed], bindOk ps match_mixed)

/-- A pure-keyword call binds when every keyword names a declared
parameter and every parameter is covered by a keyword; shared helper. -/
theorem bindOk_kw (ps : List Param) (kws : List (String × Arg))
    (h1 : ∀ k ∈ kws.map Prod.fst, ∃ p ∈ ps, p.name = k)
    (h2 : ∀ p ∈ ps, p.name ∈ kws.map Prod.fst) :
    bindOk ps ⟨[], kws⟩ = true := by
  simp only [bindOk, List.length_nil, List.take_zero, List.map_nil, Bool.and_eq_true,
    List.all_eq_true, List.any_eq_true, decide_eq_true_eq]
  refine ⟨⟨Nat.zero_le _, ?_⟩, ?_⟩
  · intro k hk
    obtain ⟨p, hp, hname⟩ := h1 k hk
    simp only [Bool.and_eq_true, Bool.not_eq_true']
    constructor
    · exact ⟨p, hp, by simp [hname]⟩
    · simp [List.contains]
  · intro p hp
    have hc : (List.map Prod.fst kws).contains p.name = true := List.elem_iff.2 (h2 p hp)
    rw [hc]
    simp

/-- In the count over a two-element list of distinct shapes every shape
occurs at most once; shared helper. -/
theorem count_pair_le_one {α : Type} [DecidableEq α] (x y c : α) (h : x ≠ y) :
    List.count c [x, y] ≤ 1 := by
  by_cases h1 : x = c
  · by_cases h2 : y = c
    · exact absurd (h1.trans h2.symm) h
    · simp [List.count_cons, h1, h2]
  · by_cases h2 : y = c
    · simp [List.count_cons, h1, h2]
    · simp [List.count_cons, h1, h2]

/-- Claim C3: a stage callable that declares exactly the parameter names
of the lower-priority binding (image_list and output for the pairing
stage, and the four keyword names, keyword-only, for the matching stage)
and not those of the preferred binding is called successfully with that
binding, and over the whole invocation no call shape — in particular no
shape incompatible with the callable — is attempted more than once. -/
theorem c3_binding_fallback (ps qs : List Param)
    (hp : (ps.map Param.name).Perm ["image_list", "output"])
    (hq : (qs.map Param.name).Perm ["conf", "pairs", "features", "export_dir"])
    (hqk : ∀ p ∈ qs, p.kwOnly = true) :
    call_pairs_exhaustive ps = ([pairs_kw_list], true) ∧
    call_match_features qs = ([match_pos, match_kw], true) ∧
    (∀ call : CallSpec, (call_pairs_exhaustive ps).1.count call ≤ 1) ∧
    (∀ call : CallSpec, (call_match_features qs).1.count call ≤ 1) := by
  have hmem : ∀ a : String, a ∈ ps.map Param.name ↔ a ∈ ["image_list", "output"] :=
    fun a => hp.mem_iff
  have h_not_dir : (ps.map Param.name).contains "image_dir" = false := by
    rw [Bool.eq_false_iff]
    intro hc
    have := (hmem "image_dir").1 (List.elem_iff.1 hc)
    simp at this
  have h_list : (ps.map Param.name).contains "image_list" = true :=
    List.elem_iff.2 ((hmem "image_list").2 (by simp))
  have h_first : pairs_first_attempt ps = pairs_kw_list := by
    rw [pairs_first_attempt]
    simp only [h_not_dir, h_list, Bool.false_eq_true, if_false, if_true]
  have h_bind_list : bindOk ps pairs_kw_list = true := by
    refine bindOk_kw ps _ ?_ ?_
    · intro k hk
      have hk' : k ∈ ["image_list", "output"] := by simpa [pairs_kw_list] using hk
      obtain ⟨p, hp', hname⟩ := List.mem_map.1 ((hmem k).2 hk')
      exact ⟨p, hp', hname⟩
    · intro p hp'
      have : p.name ∈ ["image_list", "output"] :=
        (hmem p.name).1 (List.mem_map.2 ⟨p, hp', rfl⟩)
      simpa [pairs_kw_list] using this
  have h_pairs : call_pairs_exhaustive ps = ([pairs_kw_list], true) := by
    rw [call_pairs_exhaustive]
    simp only [h_first, h_bind_list, if_true]
  have hqmem : ∀ a : String, a ∈ qs.map Param.name ↔
      a ∈ ["conf", "pairs", "features", "export_dir"] :=
    fun a => hq.mem_iff
  have hqne : qs ≠ [] := by
    intro hnil
    rw [hnil] at hq
    have := hq.length_eq
    simp at this
  have h_take : qs.takeWhile (fun p => !p.kwOnly) = [] := by
    cases hqs : qs with
    | nil => exact absurd hqs hqne
    | cons p t =>
      have hk : p.kwOnly = true := hqk p (by rw [hqs]; exact List.mem_cons_self _ _)
      rw [List.takeWhile_cons]
      simp [hk]
  have h_bind_pos : bindOk qs match_pos = false := by
    rw [bindOk]
    have : (decide (match_pos.pos.length ≤
        (qs.takeWhile (fun p => !p.kwOnly)).length)) = false := by
      rw [h_take]
      decide
    rw [this, Bool.false_and, Bool.false_and]
  have h_bind_kw : bindOk qs match_kw = true := by
    refine bindOk_kw qs _ ?_ ?_
    · intro k hk
      have hk' : k ∈ ["conf", "pairs", "features", "export_dir"] := by
        simpa [match_kw] using hk
      obtain ⟨p, hp', hname⟩ := List.mem_map.1 ((hqmem k).2 hk')
      exact ⟨p, hp', hname⟩
    · intro p hp'
      have : p.name ∈ ["conf", "pairs", "features", "export_dir"] :=
        (hqmem p.name).1 (List.mem_map.2 ⟨p, hp', rfl⟩)
      simpa [match_kw] using this
  have h_match : call_match_features qs = ([match_pos, match_kw], true) := by
    rw [call_match_features]
    simp only [h_bind_pos, h_bind_kw, Bool.false_eq_true, if_false, if_true]
  refine ⟨h_pairs, h_match, ?_, ?_⟩
  · intro call
    rw [h_pairs]
    by_cases hc : pairs_kw_list = call
    · simp [List.count_cons, hc]
    · simp [List.count_cons, hc]
  · intro call
    rw [h_match]
    exact count_pair_le_one match_pos match_kw call (by decide)

/-- Signature of a pairing stage accepting exactly image_list and output. -/
def c3_pairs_sig : List Param := [⟨"image_list", false, false⟩, ⟨"output", false, false⟩]

/-- Signature of a matching stage whose four parameters are keyword-only. -/
def c3_match_sig : List Param :=
  [⟨"conf", false, true⟩, ⟨"pairs", false, true⟩, ⟨"features", false, true⟩,
    ⟨"export_dir", false, true⟩]

/-- Witness for C3 at the two concrete signatures. -/
theorem c3_binding_fallback_witness :
    ((c3_pairs_sig.map Param.name).Perm ["image_list", "output"] ∧
      (c3_match_sig.map Param.name).Perm ["conf", "pairs", "features", "export_dir"] ∧
      ∀ p ∈ c3_match_sig, p.kwOnly = true) ∧
    (call_pairs_exhaustive c3_pairs_sig = ([pairs_kw_list], true) ∧
      call_match_features c3_match_sig = ([match_pos, match_kw], true) ∧
      (∀ call : CallSpec, (call_pairs_exhaustive c3_pairs_sig).1.count call ≤ 1) ∧
      (∀ call : CallSpec, (call_match_features c3_match_sig).1.count call ≤ 1)) :=
  ⟨⟨by decide, by decide, by decide⟩,
    c3_binding_fallback c3_pairs_sig c3_match_sig (by decide) (by decide) (by decide)⟩

/-! ## Input validation, image list, and the multi-project driver
(source lines 36-49, 236-288 and 300-312)

The images tree of a project is modeled as the list of entries that
images.rglob(star) yields: each entry carries its path relative to the
images directory, its Python Path.suffix (the final extension with the
dot, empty when there is none), and whether it is a directory.  A project
whose images path is missing or is not a directory is modeled with none.
Note that the source filters the rglob output by suffix alone, without an
is_file test, so directory entries participate in the filter exactly as
file entries do.  The external stages are modeled as succeeding; the
per-project run returns the ordered trace of the actions it performed
after validation, mirroring the statement order of the source, and an
error result carries no trace at all — nothing after the failed
validation executes. -/

/-- One entry of images.rglob(star). -/
structure FSEntry where
  rel : String
  suffix : String
  isDir : Bool
deriving DecidableEq, Repr

/-- A project directory: none when the images subdirectory is missing or
is not a directory, otherwise the rglob entries of the images tree. -/
structure Project where
  images : Option (List FSEntry)
deriving DecidableEq, Repr

/-- IMG_EXTS from the source. -/
def IMG_EXTS : List String := [".jpg", ".jpeg", ".png", ".tif", ".tiff", ".bmp"]

/-- The filter the source applies to every rglob entry:
p.suffix.lower() in IMG_EXTS. -/
def allowed_suffix (e : FSEntry) : Bool :=
  IMG_EXTS.any (fun x => x.data == lower_data e.suffix)

/-- The two validation failures of ensure_images_dir. -/
inductive ValErr
  | no_images_dir
  | no_image_files
deriving DecidableEq, Repr

/-- ensure_images_dir from the source (lines 36-43). -/
def ensure_images_dir (p : Project) : Except ValErr (List FSEntry) :=
  match p.images with
  | none => .error .no_images_dir
  | some entries =>
    if (entries.filter allowed_suffix).isEmpty then .error .no_image_files
    else .ok entries

/-- The text make_image_list_file writes (line 46-48): the relative paths
of the entries passing the suffix filter, sorted, joined by newlines with
no trailing newline.  Python sorted is a stable comparison sort over the
code-point lexicographic string order, which coincides with the String
order used here; insertionSort computes the same sorted list. -/
def make_image_list_content (entries : List FSEntry) : String :=
  String.intercalate "\n"
    (List.insertionSort (· ≤ ·) ((entries.filter allowed_suffix).map FSEntry.rel))

/-- The actions of a per-project run, in source statement order. -/
inductive Event
  | manifest_written
  | sfm_reset
  | image_list_made
  | stage_pairs
  | stage_features
  | stage_matches
  | stage_reconstruction
  | finalized
deriving DecidableEq, Repr

/-- The trace of a run whose validation passed. -/
def run_events : List Event :=
  [.manifest_written, .sfm_reset, .image_list_made, .stage_pairs, .stage_features,
    .stage_matches, .stage_reconstruction, .finalized]

/-- run_sfm_for_project from the source (lines 236-288): validation runs
first and a failure propagates before the manifest is written, the work
area is touched, or any stage runs; afterwards the run performs its
actions in order (the stages themselves are external and modeled as
succeeding). -/
def run_sfm_for_project (p : Project) : Except ValErr (List Event) :=
  match ensure_images_dir p with
  | .error e => .error e
  | .ok _ => .ok run_events

/-- Whether the run for a project raises. -/
def run_fails (p : Project) : Bool :=
  match run_sfm_for_project p with
  | .error _ => true
  | .ok _ => false

/-- The project loop of main (lines 305-312): no exception handling
surrounds the body, so a raising run aborts the loop.  Returns the
projects whose run was attempted, in order, with the error of the first
failing run if any. -/
def main_loop : List Project → List Project × Option ValErr
  | [] => ([], none)
  | p :: ps =>
    match run_sfm_for_project p with
    | .error e => ([p], some e)
    | .ok _ =>
      let r := main_loop ps
      (p :: r.1, r.2)

/-- Claim C1 (counterexample): with a first project lacking an images
directory and a second, fully valid project, the driver attempts only the
first project; the second is never attempted, so its run is prevented by
the failure of the first. -/
theorem c1_counterexample :
    (main_loop [⟨none⟩, ⟨some [⟨"a.jpg", ".jpg", false⟩]⟩]).1 = [⟨none⟩] ∧
    (⟨some [⟨"a.jpg", ".jpg", false⟩]⟩ : Project)
      ∉ (main_loop [⟨none⟩, ⟨some [⟨"a.jpg", ".jpg", false⟩]⟩]).1 ∧
    run_fails ⟨none⟩ = true ∧
    run_fails ⟨some [⟨"a.jpg", ".jpg", false⟩]⟩ = false := by
  refine ⟨by decide, by decide, by decide, by decide⟩

/-- Claim C1 (amended): the driver processes projects sequentially but
stops at the first failing run: the attempted projects are exactly the
prefix of the list up to and including the first failing project, and an
error is reported exactly when some attempted project fails. -/
theorem c1_main_loop_stops_at_failure (ps : List Project) :
    (main_loop ps).1 = ps.take (ps.findIdx run_fails + 1) ∧
    (main_loop ps).2.isSome = ps.any run_fails := by
  induction ps with
  | nil => exact ⟨rfl, rfl⟩
  | cons p t ih =>
    cases hrun : run_sfm_for_project p with
    | error e =>
      have hf : run_fails p = true := by
        rw [run_fails, hrun]
      rw [main_loop, hrun]
      constructor
      · rw [List.findIdx_cons, hf]
        rfl
      · rw [List.any_cons, hf]
        rfl
    | ok tr =>
      have hf : run_fails p = false := by
        rw [run_fails, hrun]
      rw [main_loop, hrun]
      constructor
      · rw [List.findIdx_cons, hf]
        show p :: (main_loop t).1 = (p :: t).take (t.findIdx run_fails + 1 + 1)
        rw [List.take_succ_cons, ih.1]
      · rw [List.any_cons, hf]
        show (main_loop t).2.isSome = (false || t.any run_fails)
        rw [Bool.false_or, ih.2]

/-- The entry refuting C9 and C10 as stated: a directory (not a file)
whose name carries an image extension. -/
def dir_entry : FSEntry := ⟨"holiday.jpg", ".jpg", true⟩

/-- Modelled from the spec wording for comparison: the project contains at
least one image file — a non-directory entry with an allowed extension. -/
def spec_has_image_file (l : List FSEntry) : Bool :=
  l.any (fun e => allowed_suffix e && !e.isDir)

/-- Claim C9 (counterexample): a project whose images tree holds a single
directory named holiday.jpg and no file at all passes validation and runs
without raising, although it contains no file with a recognized image
extension, refuting the only-if direction of the claim. -/
theorem c9_counterexample :
    (run_sfm_for_project ⟨some [dir_entry]⟩).isOk = true ∧
    spec_has_image_file [dir_entry] = false ∧
    dir_entry.isDir = true := by
  refine ⟨by decide, by decide, by decide⟩

/-- Claim C9 (amended): the per-project run raises before executing any
stage — an error result carries no performed action at all — exactly when
the project lacks an images directory or the images tree has no entry
(file or directory) whose extension, lowercased, is in the allow-list. -/
theorem c9_validation_iff (p : Project) :
    (∃ e, run_sfm_for_project p = .error e) ↔
      (p.images = none ∨
        ∃ l, p.images = some l ∧ l.filter allowed_suffix = []) := by
  cases himg : p.images with
  | none =>
    have h1 : run_sfm_for_project p = .error .no_images_dir := by
      rw [run_sfm_for_project, ensure_images_dir, himg]
    rw [h1]
    simp
  | some entries =>
    have h1 : ensure_images_dir p = (if (entries.filter allowed_suffix).isEmpty
        then Except.error ValErr.no_image_files else Except.ok entries) := by
      rw [ensure_images_dir, himg]
    rw [run_sfm_for_project, h1]
    by_cases hemp : (entries.filter allowed_suffix).isEmpty
    · rw [if_pos hemp]
      constructor
      · intro _
        exact Or.inr ⟨entries, rfl, List.isEmpty_iff.1 hemp⟩
      · intro _
        exact ⟨.no_image_files, rfl⟩
    · rw [if_neg hemp]
      constructor
      · rintro ⟨e, he⟩
        simp at he
      · rintro (hnone | ⟨l, hl, hfilt⟩)
        · simp at hnone
        · injection hl with h
          rw [h] at hemp
          rw [hfilt] at hemp
          exact absurd rfl hemp

/-- Witness for the amended C9: a project without an images directory
raises, and the valid single-image project does not. -/
theorem c9_validation_iff_witness :
    (∃ e, run_sfm_for_project ⟨none⟩ = .error e) ∧
    ¬(∃ e, run_sfm_for_project ⟨some [⟨"a.jpg", ".jpg", false⟩]⟩ = .error e) :=
  ⟨(c9_validation_iff ⟨none⟩).2 (Or.inl rfl),
    fun h =>
      by
        rcases (c9_validation_iff ⟨some [⟨"a.jpg", ".jpg", false⟩]⟩).1 h with h' | ⟨l, hl, hf⟩
        · cases h'
        · injection hl with hl
          rw [← hl] at hf
          cases hf⟩

/-- Modelled from the spec wording for comparison: the sorted relative
paths of the image files — non-directory entries only. -/
def spec_image_list_lines (entries : List FSEntry) : List String :=
  List.insertionSort (· ≤ ·)
    ((entries.filter (fun e => allowed_suffix e && !e.isDir)).map FSEntry.rel)

/-- Claim C10 (counterexample): with a single directory entry named
holiday.jpg the generated list text contains that directory path, while
the paths of the files with allowed extension are empty — the content is
not a listing of files only. -/
theorem c10_counterexample :
    make_image_list_content [dir_entry] = "holiday.jpg" ∧
    spec_image_list_lines [dir_entry] = [] ∧
    ("holiday.jpg" : String) ≠ "" := by
  refine ⟨by decide, by decide, by decide⟩

/-- Claim C10 (amended): the generated image-list text is the newline
join, without trailing newline, of a lexicographically sorted list that is
a permutation of the relative paths of exactly the rglob entries (files or
directories) whose extension is in the allow-list; in particular it is a
deterministic function of that entry set. -/
theorem c10_image_list_sorted (entries : List FSEntry) :
    ∃ L : List String,
      make_image_list_content entries = String.intercalate "\n" L ∧
      L.Sorted (· ≤ ·) ∧
      L.Perm ((entries.filter allowed_suffix).map FSEntry.rel) :=
  ⟨List.insertionSort (· ≤ ·) ((entries.filter allowed_suffix).map FSEntry.rel),
    rfl, List.sorted_insertionSort _ _, List.perm_insertionSort _ _⟩

end Glacier
